import Mathlib

/-!
Verification of the feed normalization and archive-grouping pipeline of
`scripts/fetch_and_build.py` (Bluesky author feed to month-archived static
HTML).  The Python source is shallowly embedded: dictionaries become
structures with `Option` fields (a `none` field models an absent or null
key), machine integers become `Int`/`Nat`, and fallible code returns
`Option`.  Names follow the source where Lean allows it.
-/

namespace BskyArchive

/-! ## Data model

A raw feed item as returned by `app.bsky.feed.getAuthorFeed`.  The pipeline
reads `item["reason"]` (key presence only), `item["post"]["record"]`
(`$type`, `text`, `createdAt`), `item["post"]["uri"]` and `item["reply"]`.
For `reply`, the outer `Option` models key presence and the inner one models
a non-null value (`"reply" in it and it["reply"] is not None`). -/

structure PostRecord where
  type : Option String
  text : Option String
  createdAt : Option String
  deriving DecidableEq, Repr

structure PostView where
  record : Option PostRecord
  uri : Option String
  deriving DecidableEq, Repr

structure RawFeedItem where
  reason : Bool
  post : Option PostView
  reply : Option (Option Unit)
  deriving DecidableEq, Repr

def emptyRec : PostRecord := ⟨none, none, none⟩

/-! ## Calendar arithmetic

Conversions between days-since-epoch and proleptic Gregorian civil dates,
modelling the date arithmetic of Python's `datetime`.  All divisors are
positive, so `Int.ediv`/`Int.emod` agree with Python's floor `//` and `%`. -/

def daysFromCivil (y m d : Int) : Int :=
  let y1 := if m ≤ 2 then y - 1 else y
  let era := Int.ediv y1 400
  let yoe := y1 - era * 400
  let doy := Int.ediv (153 * (m + (if 2 < m then -3 else 9)) + 2) 5 + d - 1
  let doe := yoe * 365 + Int.ediv yoe 4 - Int.ediv yoe 100 + doy
  era * 146097 + doe - 719468

def civilFromDays (z0 : Int) : Int × Int × Int :=
  let z := z0 + 719468
  let era := Int.ediv z 146097
  let doe := z - era * 146097
  let yoe := Int.ediv (doe - Int.ediv doe 1460 + Int.ediv doe 36524 - Int.ediv doe 146096) 365
  let y := yoe + era * 400
  let doy := doe - (365 * yoe + Int.ediv yoe 4 - Int.ediv yoe 100)
  let mp := Int.ediv (5 * doy + 2) 153
  let d := doy - Int.ediv (153 * mp + 2) 5 + 1
  let m := mp + (if mp < 10 then 3 else -9)
  (if m ≤ 2 then y + 1 else y, m, d)

/-- A Python `datetime` value: civil fields plus an optional fixed UTC
offset in seconds (`none` models a naive datetime). -/
structure DT where
  year : Int
  month : Int
  day : Int
  hour : Int
  minute : Int
  second : Int
  utcOffset : Option Int
  deriving DecidableEq, Repr

/-- Seconds-since-epoch of the civil fields read as if they were UTC. -/
def rawSeconds (dt : DT) : Int :=
  daysFromCivil dt.year dt.month dt.day * 86400
    + dt.hour * 3600 + dt.minute * 60 + dt.second

/-- `dt.timestamp()` truncated to seconds, and the key by which Python
orders aware datetimes.  A naive datetime would use the system timezone;
it is modelled as UTC here (no claim exercises naive instants: every
`createdAt` ending in `Z` or carrying an offset parses as aware). -/
def epochSeconds (dt : DT) : Int :=
  rawSeconds dt - dt.utcOffset.getD 0

/-- `dt.astimezone(timezone(timedelta(seconds=off)))`: same instant,
civil fields recomputed at the given fixed offset. -/
def tzShift (dt : DT) (off : Int) : DT :=
  let s := epochSeconds dt + off
  let days := Int.ediv s 86400
  let rem := Int.emod s 86400
  let c := civilFromDays days
  ⟨c.1, c.2.1, c.2.2, Int.ediv rem 3600, Int.ediv (Int.emod rem 3600) 60,
    Int.emod rem 60, some off⟩

def pad2 (n : Int) : String :=
  if n.toNat < 10 then "0" ++ toString n.toNat else toString n.toNat

def pad4 (n : Int) : String :=
  if n.toNat < 10 then "000" ++ toString n.toNat
  else if n.toNat < 100 then "00" ++ toString n.toNat
  else if n.toNat < 1000 then "0" ++ toString n.toNat
  else toString n.toNat

/-- `month_key(dt)`: `dt.strftime("%Y-%m")`, formatted from the datetime's
own civil fields. -/
def month_key (dt : DT) : String :=
  pad4 dt.year ++ "-" ++ pad2 dt.month

/-- `nice_date(dt)`: localize to JST (UTC+9, 32400 s) and format
`"%Y-%m-%d %H:%M"`. -/
def nice_date (dt : DT) : String :=
  let j := tzShift dt 32400
  pad4 j.year ++ "-" ++ pad2 j.month ++ "-" ++ pad2 j.day ++ " "
    ++ pad2 j.hour ++ ":" ++ pad2 j.minute

/-! ## ISO-8601 parsing

`datetime.datetime.fromisoformat` on the canonical forms produced by the
feed (`YYYY-MM-DD`, optionally `THH:MM[:SS[.fff...]]`, optionally a
`+HH:MM`/`-HH:MM` offset).  Out-of-range fields are rejected as in
Python. -/

def readDigits : Nat → Nat → List Char → Option (Nat × List Char)
  | 0, acc, cs => some (acc, cs)
  | _ + 1, _, [] => none
  | n + 1, acc, c :: cs =>
      if c.isDigit then readDigits n (acc * 10 + (c.toNat - 48)) cs else none

def expectChar (c : Char) : List Char → Option (List Char)
  | [] => none
  | x :: xs => if x = c then some xs else none

def isLeap (y : Int) : Bool :=
  Int.emod y 4 == 0 && (Int.emod y 100 != 0 || Int.emod y 400 == 0)

def daysInMonth (y m : Int) : Int :=
  if m = 2 then (if isLeap y then 29 else 28)
  else if m = 4 ∨ m = 6 ∨ m = 9 ∨ m = 11 then 30
  else 31

def skipFrac : List Char → Option (List Char)
  | '.' :: r =>
      match r with
      | c :: _ => if c.isDigit then some (r.dropWhile Char.isDigit) else none
      | [] => none
  | r => some r

def parseSecondPart : List Char → Option (Nat × List Char)
  | ':' :: r => do
      let (ss, r1) ← readDigits 2 0 r
      let r2 ← skipFrac r1
      pure (ss, r2)
  | r => pure (0, r)

def parseOffTail (sign : Int) (r : List Char) : Option (Option Int) := do
  let (oh, r1) ← readDigits 2 0 r
  let r2 ← expectChar ':' r1
  let (om, r3) ← readDigits 2 0 r2
  guard (r3 = [])
  guard (oh ≤ 23 ∧ om ≤ 59)
  pure (some (sign * ((oh : Int) * 3600 + (om : Int) * 60)))

def parseOffsetEnd : List Char → Option (Option Int)
  | [] => some none
  | '+' :: r => parseOffTail 1 r
  | '-' :: r => parseOffTail (-1) r
  | _ => none

def parseIsoChars (cs : List Char) : Option DT := do
  let (y, r1) ← readDigits 4 0 cs
  let r2 ← expectChar '-' r1
  let (mo, r3) ← readDigits 2 0 r2
  let r4 ← expectChar '-' r3
  let (d, r5) ← readDigits 2 0 r4
  guard (1 ≤ mo ∧ mo ≤ 12)
  guard (1 ≤ d ∧ (d : Int) ≤ daysInMonth (y : Int) (mo : Int))
  match r5 with
  | [] => pure ⟨(y : Int), (mo : Int), (d : Int), 0, 0, 0, none⟩
  | 'T' :: r6 => do
      let (hh, r7) ← readDigits 2 0 r6
      let r8 ← expectChar ':' r7
      let (mi, r9) ← readDigits 2 0 r8
      let (ss, r10) ← parseSecondPart r9
      let off ← parseOffsetEnd r10
      guard (hh ≤ 23 ∧ mi ≤ 59 ∧ ss ≤ 59)
      pure ⟨(y : Int), (mo : Int), (d : Int), (hh : Int), (mi : Int), (ss : Int), off⟩
  | _ => none

def parseIso (s : String) : Option DT := parseIsoChars s.data

/-- `ts.replace("Z", "+00:00")`: every `Z` character is expanded. -/
def replaceZ (s : String) : String :=
  String.mk (s.data.foldr
    (fun c acc =>
      if c = 'Z' then '+' :: '0' :: '0' :: ':' :: '0' :: '0' :: acc
      else c :: acc) [])

/-! ## Classifier utilities -/

/-- `at_uri_to_post_url`: `uri.split("/", 3)` (at most three splits, the
remainder stays in the last chunk), unpacked as
`_, did, collection, rkey`; any failure (fewer than four chunks, or a
missing uri, where Python raises and the `except` returns `None`) yields
`none`. -/
def splitSlashAux : Nat → List Char → List Char → List (List Char)
  | _, acc, [] => [acc.reverse]
  | n, acc, c :: cs =>
      if c = '/' then
        match n with
        | 0 => splitSlashAux 0 (c :: acc) cs
        | m + 1 => acc.reverse :: splitSlashAux m [] cs
      else splitSlashAux n (c :: acc) cs

def at_uri_to_post_url (uri : Option String) : Option String :=
  match uri with
  | none => none
  | some u =>
      match splitSlashAux 3 [] u.data with
      | [_, did, _collection, rkey] =>
          some ("https://bsky.app/profile/" ++ String.mk did ++ "/post/"
            ++ String.mk rkey)
      | _ => none

/-- `is_own_original_post(item)`: reject items carrying a `reason` key,
items without a (truthy) `post`, and records whose `$type` is not
`app.bsky.feed.post`. -/
def is_own_original_post (it : RawFeedItem) : Bool :=
  if it.reason then false
  else
    match it.post with
    | none => false
    | some pv => (pv.record.getD emptyRec).type == some "app.bsky.feed.post"

/-- `html.escape` with its default `quote=True`. -/
def escapeChar (c : Char) : List Char :=
  if c = '&' then "&amp;".data
  else if c = '<' then "&lt;".data
  else if c = '>' then "&gt;".data
  else if c = '"' then "&quot;".data
  else if c = Char.ofNat 39 then "&#x27;".data
  else [c]

def htmlEscape (s : String) : String :=
  String.mk (s.data.foldr (fun c acc => escapeChar c ++ acc) [])

/-- `extract_text(rec)`. -/
def extract_text (r : PostRecord) : String :=
  htmlEscape (r.text.getD "")

/-- `extract_created_at(rec)`: a missing or empty (falsy) `createdAt`
yields `None`; otherwise `Z` is replaced by `+00:00` and the string is
parsed, any parse failure yielding `None`. -/
def extract_created_at (r : PostRecord) : Option DT :=
  match r.createdAt with
  | none => none
  | some ts => if ts = "" then none else parseIso (replaceZ ts)

/-- `"reply" in it and it["reply"] is not None`. -/
def replyFlag (it : RawFeedItem) : Bool :=
  match it.reply with
  | some (some _) => true
  | _ => false

/-! ## The collection loop of `build` (lines 167-185) -/

structure NormalizedPost where
  dt : DT
  text : String
  url : Option String
  is_reply : Bool
  deriving DecidableEq, Repr

/-- The body of the post-collection loop in `build`: one raw item either
becomes a fully normalized post or is dropped; no exception escapes. -/
def classifyItem (it : RawFeedItem) : Option NormalizedPost :=
  if is_own_original_post it then
    match it.post with
    | some pv =>
        match extract_created_at (pv.record.getD emptyRec) with
        | some dt =>
            some ⟨dt, extract_text (pv.record.getD emptyRec),
              at_uri_to_post_url pv.uri, replyFlag it⟩
        | none => none
    | none => none
  else none

def collectPosts (feed : List RawFeedItem) : List NormalizedPost :=
  feed.filterMap classifyItem

/-! ## Sorting and month grouping (`build`, lines 187-194)

`posts.sort(key=lambda x: x["dt"], reverse=True)` is a stable descending
sort on the datetime key (aware datetimes compare by instant), modelled as
the stable insertion sort `sortDesc`.  `months.setdefault(key, []).append(p)`
over an insertion-ordered dict is the association-list fold `groupByMonth`. -/

/-- `a` may come before `b` in descending order. -/
def descOrder (a b : NormalizedPost) : Prop :=
  epochSeconds b.dt ≤ epochSeconds a.dt

instance : DecidableRel descOrder := fun a b =>
  inferInstanceAs (Decidable (epochSeconds b.dt ≤ epochSeconds a.dt))

def insertDesc (p : NormalizedPost) : List NormalizedPost → List NormalizedPost
  | [] => [p]
  | q :: qs =>
      if epochSeconds q.dt < epochSeconds p.dt then p :: q :: qs
      else q :: insertDesc p qs

def sortDesc (ps : List NormalizedPost) : List NormalizedPost :=
  ps.foldl (fun acc p => insertDesc p acc) []

/-- Append `p` to the bucket keyed `k`, creating the bucket at the end of
the (insertion-ordered) association list when the key is new. -/
def insertPost (m : List (String × List NormalizedPost)) (k : String)
    (p : NormalizedPost) : List (String × List NormalizedPost) :=
  match m with
  | [] => [(k, [p])]
  | (k', l) :: rest =>
      if k' = k then (k', l ++ [p]) :: rest
      else (k', l) :: insertPost rest k p

def groupByMonth (ps : List NormalizedPost) :
    List (String × List NormalizedPost) :=
  ps.foldl (fun m p => insertPost m (month_key p.dt) p) []

/-! ## Month-page rendering data (`build`, lines 197-225)

Of each rendered `<article>` the claims use the `data-epoch` attribute
(`int(p["dt"].timestamp())`) and the displayed local time
(`nice_date(p["dt"])`). -/

def renderArticle (p : NormalizedPost) : Int × String :=
  (epochSeconds p.dt, nice_date p.dt)

def buildMonths (feed : List RawFeedItem) :
    List (String × List NormalizedPost) :=
  groupByMonth (sortDesc (collectPosts feed))

/-- The month directories written by `build`: one per month key, each with
the article data of its posts in bucket order. -/
def monthPages (feed : List RawFeedItem) :
    List (String × List (Int × String)) :=
  (buildMonths feed).map (fun kl => (kl.1, kl.2.map renderArticle))

/-! ## The fetch loop (`get_author_feed_public`, lines 59-80)

The upstream endpoint is modelled as a function from the request index to
the page it returns; the loop is given fuel, and the theorems show the
result is fuel-independent (the loop terminates) once some page is
terminal.  Python truthiness: the loop continues only when the page
returned a non-empty cursor string and a non-empty feed. -/

structure Page where
  feed : List RawFeedItem
  cursor : Option String

structure Request where
  limit : Nat
  cursor : Option String
  deriving DecidableEq, Repr

def cursorTruthy : Option String → Bool
  | none => false
  | some s => s ≠ ""

def continues (pg : Page) : Bool :=
  cursorTruthy pg.cursor && !pg.feed.isEmpty

/-- One iteration takes the current cursor variable, issues the request
(`limit=100`, the cursor parameter only when truthy), extends the item
list, and loops only while the page has a truthy cursor and a non-empty
feed.  Returns the accumulated items and the requests issued. -/
def fetchLoop (server : Nat → Page) :
    Nat → Nat → Option String → List RawFeedItem × List Request
  | 0, _, _ => ([], [])
  | fuel + 1, i, cur =>
      let rq : Request := ⟨100, if cursorTruthy cur then cur else none⟩
      let pg := server i
      if continues pg then
        let rest := fetchLoop server fuel (i + 1) pg.cursor
        (pg.feed ++ rest.1, rq :: rest.2)
      else (pg.feed, [rq])

def get_author_feed_public (server : Nat → Page) (fuel : Nat) :
    List RawFeedItem :=
  (fetchLoop server fuel 0 none).1

/-! ## Stylesheets (`write_default_css`, lines 129-153) -/

/-- The value of the dedented, stripped default-style string written to
`style.css` (braces escaped). -/
def defaultCssText : String :=
  "/* default style */\n" ++
  ":root\x7b--maxw:760px;--pad:1rem\x7d\n" ++
  "*\x7bbox-sizing:border-box\x7d\n" ++
  "body\x7bfont-family:system-ui,-apple-system,Segoe UI,Roboto,Helvetica,Arial,Apple Color Emoji,Segoe UI Emoji;line-height:1.75;margin:2rem auto;max-width:var(--maxw);padding:0 var(--pad)\x7d\n" ++
  "a\x7btext-decoration:none\x7d\n" ++
  "header\x7bmargin-bottom:1.25rem\x7d\n" ++
  "h1\x7bfont-size:clamp(1.6rem,6vw,2.6rem);line-height:1.2;margin:0 0 .25rem\x7d\n" ++
  ".month-list a\x7bdisplay:block;padding:.35rem 0\x7d\n" ++
  ".post\x7bpadding:.9rem 0;border-bottom:1px solid #eee\x7d\n" ++
  ".post .meta\x7bfont-size:.95rem;opacity:.7\x7d\n" ++
  ".badge\x7bfont-size:.75rem;padding:.1rem .45rem;border:1px solid #ccc;border-radius:.5rem;margin-left:.5rem\x7d\n" ++
  "footer\x7bmargin:3rem 0 2rem;font-size:.9rem;opacity:.7\x7d\n" ++
  "button\x7bfont-size:.95rem;padding:.25rem .7rem;border:1px solid #ccc;border-radius:.5rem;background:#f9f9f9;cursor:pointer\x7d\n" ++
  "button:hover\x7bbackground:#eee\x7d\n" ++
  "@media (max-width:480px)\x7b\n" ++
  "  :root\x7b--pad:.75rem\x7d\n" ++
  "  .post .meta\x7bfont-size:.9rem\x7d\n" ++
  "\x7d\n"

def userCssPlaceholder : String :=
  "/* put your overrides here. this file won\x27t be overwritten. */\n"

/-- The stylesheet files under the output directory: `none` models a file
that does not exist. -/
structure CssState where
  styleCss : Option String
  userCss : Option String
  deriving DecidableEq, Repr

/-- `write_default_css()`: always rewrite `style.css`; create `user.css`
with the placeholder only when it does not exist. -/
def write_default_css (fs : CssState) : CssState :=
  { styleCss := some defaultCssText
    userCss :=
      match fs.userCss with
      | none => some userCssPlaceholder
      | some c => some c }

/-! ## Actor resolution (`build`, line 161) -/

/-- Python `x or y` on an optional string: `None` and `""` are falsy. -/
def pyOrStr (x : Option String) (y : String) : String :=
  match x with
  | none => y
  | some s => if s = "" then y else s

/-- `actor = resolve_did_via_public(HANDLE) or HANDLE`, where the resolver
returns `r.json().get("did")` (possibly null/empty on a successful
response). -/
def resolvedActor (did : Option String) (handle : String) : String :=
  pyOrStr did handle

/-! ## Concrete items used to evaluate the pipeline -/

def repostItem : RawFeedItem :=
  ⟨true,
    some ⟨some ⟨some "app.bsky.feed.post", some "boost", some "2024-03-15T10:00:00Z"⟩,
      some "at://did:plc:abc/app.bsky.feed.post/3kabc"⟩,
    none⟩

def replyItem : RawFeedItem :=
  ⟨false,
    some ⟨some ⟨some "app.bsky.feed.post", some "hi", some "2024-03-15T10:00:00Z"⟩,
      some "at://did:plc:abc/app.bsky.feed.post/3kabc"⟩,
    some (some ())⟩

def helloItem : RawFeedItem :=
  ⟨false,
    some ⟨some ⟨some "app.bsky.feed.post", some "hello", some "2024-03-15T10:00:00Z"⟩,
      some "at://did:plc:abc/app.bsky.feed.post/3kabc"⟩,
    none⟩

def badTsItem : RawFeedItem :=
  ⟨false,
    some ⟨some ⟨some "app.bsky.feed.post", some "x", some "not-a-date"⟩,
      some "at://did:plc:abc/app.bsky.feed.post/3kabc"⟩,
    none⟩

def badUriItem : RawFeedItem :=
  ⟨false,
    some ⟨some ⟨some "app.bsky.feed.post", some "x", some "2024-03-15T10:00:00Z"⟩,
      none⟩,
    none⟩

def postA : NormalizedPost := ⟨⟨2024, 3, 15, 10, 0, 0, some 0⟩, "hello", none, false⟩

def postB : NormalizedPost := ⟨⟨2024, 3, 16, 11, 0, 0, some 0⟩, "x", none, true⟩

def postC : NormalizedPost := ⟨⟨2024, 4, 1, 0, 0, 0, some 0⟩, "y", none, false⟩

/-! ## Theorems -/

/-- Helper: the shape of any successful classification: the item passed the
filter, carried a post payload with a parseable timestamp, and the
normalized fields are exactly the extracted ones. -/
theorem classifyItem_some_shape {it : RawFeedItem} {p : NormalizedPost}
    (h : classifyItem it = some p) :
    ∃ pv, it.post = some pv ∧ is_own_original_post it = true ∧
      ∃ dt, extract_created_at (pv.record.getD emptyRec) = some dt ∧
        p = ⟨dt, extract_text (pv.record.getD emptyRec),
              at_uri_to_post_url pv.uri, replyFlag it⟩ := by
  unfold classifyItem at h
  split at h
  next hg =>
    split at h
    next pv hpost =>
      split at h
      next dt hdt => exact ⟨pv, hpost, hg, dt, hdt, (Option.some.inj h).symm⟩
      next hdt => simp at h
    next hpost => simp at h
  next hg => simp at h

/-- Claim C1 (code defect, evaluated at the failing input): on the real
at-uri format documented in the function's own comment
(`at://{did}/app.bsky.feed.post/{rkey}`), `split("/", 3)` puts the empty
chunk between the two scheme slashes into the account-id position and the
collection name into the record-key position, so the produced URL is
`https://bsky.app/profile//post/app.bsky.feed.post/{rkey}` instead of the
documented `https://bsky.app/profile/{did}/post/{rkey}`. -/
theorem c1_permalink_mangles_real_uri :
    at_uri_to_post_url (some "at://did:plc:abc/app.bsky.feed.post/3kabc")
      = some "https://bsky.app/profile//post/app.bsky.feed.post/3kabc" ∧
    at_uri_to_post_url (some "at://did:plc:abc/app.bsky.feed.post/3kabc")
      ≠ some "https://bsky.app/profile/did:plc:abc/post/3kabc" :=
  ⟨by decide, by decide⟩

/-- Claim C2 (counterexample): on the feed containing exactly the single
non-reply post dated `2024-03-15T10:00:00Z` with text `hello`, the month
directory is `2024-03` and the displayed local time is
`2024-03-15 19:00`, but the article's `data-epoch` attribute is
`1710496800`, not the `1710495600` the claim states. -/
theorem c2_epoch_counterexample :
    monthPages [helloItem] = [("2024-03", [(1710496800, "2024-03-15 19:00")])] ∧
    (1710496800 : Int) ≠ 1710495600 :=
  ⟨by decide, by decide⟩

/-- Claim C2 (amended): the scenario feed produces the single month
directory `2024-03` with one article whose displayed local time is
`2024-03-15 19:00` (UTC+9) and whose epoch attribute equals
`1710496800`. -/
theorem c2_scenario :
    monthPages [helloItem]
      = [("2024-03", [(1710496800, "2024-03-15 19:00")])] := by
  decide

/-- Claim C3: an item carrying a `reason` annotation is rejected by the
classifier regardless of its other fields, so items with a `reason`
contribute nothing to the normalized post set. -/
theorem c3_reposts_excluded :
    (∀ it : RawFeedItem, it.reason = true → classifyItem it = none) ∧
    (∀ feed : List RawFeedItem,
      collectPosts feed
        = collectPosts (feed.filter (fun it => !it.reason))) := by
  have h1 : ∀ it : RawFeedItem, it.reason = true → classifyItem it = none := by
    intro it h
    simp [classifyItem, is_own_original_post, h]
  refine ⟨h1, ?_⟩
  intro feed
  induction feed with
  | nil => rfl
  | cons it rest ih =>
      by_cases h : it.reason = true
      · simpa [collectPosts, List.filter_cons, h, h1 it h] using ih
      · simp only [Bool.not_eq_true] at h
        simp only [collectPosts, List.filter_cons, h, Bool.not_false,
          if_pos, List.filterMap_cons] at ih ⊢
        cases classifyItem it <;> simp [ih]

/-- Witness for C3 at a concrete repost item. -/
theorem c3_reposts_excluded_witness :
    classifyItem repostItem = none ∧
    collectPosts [repostItem]
      = collectPosts ([repostItem].filter (fun it => !it.reason)) :=
  ⟨c3_reposts_excluded.1 repostItem rfl, c3_reposts_excluded.2 [repostItem]⟩

/-- Claim C8: for every accepted post, `is_reply` is true iff the source
item's reply field was present and non-null (the inner value is `Unit`, so
present-and-non-null is exactly `some (some ())`). -/
theorem c8_isreply_iff :
    ∀ (it : RawFeedItem) (p : NormalizedPost), classifyItem it = some p →
      (p.is_reply = true ↔ it.reply = some (some ())) := by
  intro it p h
  obtain ⟨pv, -, -, dt, -, hp⟩ := classifyItem_some_shape h
  subst hp
  cases hr : it.reply with
  | none => simp [replyFlag, hr]
  | some o => cases o <;> simp [replyFlag, hr]

/-- Witness for C8 at a concrete reply item. -/
theorem c8_isreply_iff_witness :
    ((⟨⟨2024, 3, 15, 10, 0, 0, some 0⟩, "hi",
        some "https://bsky.app/profile//post/app.bsky.feed.post/3kabc",
        true⟩ : NormalizedPost).is_reply = true
      ↔ replyItem.reply = some (some ())) :=
  c8_isreply_iff replyItem _ (by decide)

/-- Claim C7: malformed records are locally recovered, never fatal.  A
record whose creation timestamp is missing or unparseable is dropped
(classification yields `none`, no exception); an accepted record whose
resource identifier is malformed keeps its post with a null permalink.
The classifier is a total function, so no input aborts the run. -/
theorem c7_malformed_recovered :
    (∀ (it : RawFeedItem) (pv : PostView), it.post = some pv →
      extract_created_at (pv.record.getD emptyRec) = none →
      classifyItem it = none) ∧
    (∀ (it : RawFeedItem) (pv : PostView) (dt : DT),
      it.post = some pv → is_own_original_post it = true →
      extract_created_at (pv.record.getD emptyRec) = some dt →
      at_uri_to_post_url pv.uri = none →
      classifyItem it
        = some ⟨dt, extract_text (pv.record.getD emptyRec), none,
            replyFlag it⟩) := by
  constructor
  · intro it pv hpost hdt
    unfold classifyItem
    split
    next hg => simp [hpost, hdt]
    next hg => rfl
  · intro it pv dt hpost hg hdt hurl
    simp [classifyItem, hg, hpost, hdt, hurl]

/-- Witness for C7: a concrete unparseable-timestamp item is dropped, and a
concrete item without a uri is kept with a null permalink. -/
theorem c7_malformed_recovered_witness :
    classifyItem badTsItem = none ∧
    classifyItem badUriItem
      = some ⟨⟨2024, 3, 15, 10, 0, 0, some 0⟩, "x", none, false⟩ :=
  ⟨c7_malformed_recovered.1 badTsItem
      ⟨some ⟨some "app.bsky.feed.post", some "x", some "not-a-date"⟩,
        some "at://did:plc:abc/app.bsky.feed.post/3kabc"⟩
      rfl (by decide),
   c7_malformed_recovered.2 badUriItem
      ⟨some ⟨some "app.bsky.feed.post", some "x", some "2024-03-15T10:00:00Z"⟩,
        none⟩
      ⟨2024, 3, 15, 10, 0, 0, some 0⟩ rfl (by decide) (by decide) rfl⟩

/-- Claim C9: `write_default_css` creates `user.css` with the placeholder
only when absent, leaves an existing `user.css` unchanged (so a second run
changes nothing), and rewrites `style.css` on every run. -/
theorem c9_user_css_preserved :
    ∀ fs : CssState,
      (fs.userCss = none →
        (write_default_css fs).userCss = some userCssPlaceholder) ∧
      (∀ c, fs.userCss = some c → (write_default_css fs).userCss = some c) ∧
      (write_default_css (write_default_css fs)).userCss
        = (write_default_css fs).userCss ∧
      (write_default_css fs).styleCss = some defaultCssText := by
  intro fs
  refine ⟨fun h => ?_, fun c h => ?_, ?_, rfl⟩
  · simp [write_default_css, h]
  · simp [write_default_css, h]
  · cases h : fs.userCss <;> simp [write_default_css, h]

/-- Witness for C9 at concrete filesystem states. -/
theorem c9_user_css_preserved_witness :
    (write_default_css ⟨none, none⟩).userCss = some userCssPlaceholder ∧
    (write_default_css ⟨none, some "body\x7bcolor:red\x7d"⟩).userCss
      = some "body\x7bcolor:red\x7d" ∧
    (write_default_css (write_default_css ⟨none, none⟩)).userCss
      = (write_default_css ⟨none, none⟩).userCss ∧
    (write_default_css ⟨none, none⟩).styleCss = some defaultCssText :=
  ⟨(c9_user_css_preserved ⟨none, none⟩).1 rfl,
   (c9_user_css_preserved ⟨none, some "body\x7bcolor:red\x7d"⟩).2.1 _ rfl,
   (c9_user_css_preserved ⟨none, none⟩).2.2.1,
   (c9_user_css_preserved ⟨none, none⟩).2.2.2⟩

/-- Claim C10: when handle resolution yields no identifier (null or empty
on a successful response), the build falls back to the raw handle as the
actor. -/
theorem c10_fallback_handle :
    ∀ (did : Option String) (handle : String),
      did = none ∨ did = some "" → resolvedActor did handle = handle := by
  intro did handle h
  rcases h with h | h <;> subst h <;> simp [resolvedActor, pyOrStr]

/-- Witness for C10 at a concrete null resolution. -/
theorem c10_fallback_handle_witness :
    resolvedActor none "alice.bsky.social" = "alice.bsky.social" :=
  c10_fallback_handle none "alice.bsky.social" (Or.inl rfl)

/-! ### Sorting lemmas -/

theorem insertDesc_perm (p : NormalizedPost) (l : List NormalizedPost) :
    (insertDesc p l).Perm (p :: l) := by
  induction l with
  | nil => exact List.Perm.refl _
  | cons q qs ih =>
      unfold insertDesc
      split
      · exact List.Perm.refl _
      · exact (ih.cons q).trans (List.Perm.swap p q qs)

theorem sortDesc_aux_perm (ps : List NormalizedPost) :
    ∀ acc, (ps.foldl (fun acc p => insertDesc p acc) acc).Perm (acc ++ ps) := by
  induction ps with
  | nil => intro acc; simp
  | cons p ps ih =>
      intro acc
      simp only [List.foldl_cons]
      refine (ih _).trans ?_
      refine ((insertDesc_perm p acc).append_right ps).trans ?_
      exact List.perm_middle.symm

theorem sortDesc_perm (ps : List NormalizedPost) : (sortDesc ps).Perm ps := by
  simpa using sortDesc_aux_perm ps []

theorem insertDesc_pairwise {p : NormalizedPost} {l : List NormalizedPost}
    (h : l.Pairwise descOrder) : (insertDesc p l).Pairwise descOrder := by
  induction l with
  | nil => simp [insertDesc]
  | cons q qs ih =>
      rcases List.pairwise_cons.mp h with ⟨hq, hqs⟩
      unfold insertDesc
      split
      next hlt =>
        refine List.pairwise_cons.mpr ⟨?_, h⟩
        intro x hx
        rcases List.mem_cons.mp hx with rfl | hx
        · exact le_of_lt hlt
        · exact le_trans (hq x hx) (le_of_lt hlt)
      next hge =>
        refine List.pairwise_cons.mpr ⟨?_, ih hqs⟩
        intro x hx
        have hx' : x ∈ p :: qs := (insertDesc_perm p qs).subset hx
        rcases List.mem_cons.mp hx' with rfl | hx'
        · exact le_of_not_lt hge
        · exact hq x hx'

theorem sortDesc_pairwise (ps : List NormalizedPost) :
    (sortDesc ps).Pairwise descOrder := by
  suffices h : ∀ acc : List NormalizedPost, acc.Pairwise descOrder →
      (ps.foldl (fun acc p => insertDesc p acc) acc).Pairwise descOrder by
    exact h [] (by simp)
  induction ps with
  | nil => intro acc hacc; simpa using hacc
  | cons p ps ih =>
      intro acc hacc
      simp only [List.foldl_cons]
      exact ih _ (insertDesc_pairwise hacc)

theorem insertDesc_of_le {p : NormalizedPost} {acc : List NormalizedPost}
    (h : ∀ q ∈ acc, ¬ epochSeconds q.dt < epochSeconds p.dt) :
    insertDesc p acc = acc ++ [p] := by
  induction acc with
  | nil => rfl
  | cons q qs ih =>
      unfold insertDesc
      rw [if_neg (h q (List.mem_cons_self q qs)),
        ih (fun x hx => h x (List.mem_cons_of_mem q hx))]
      rfl

theorem sortDesc_of_sorted :
    ∀ (ps acc : List NormalizedPost), (acc ++ ps).Pairwise descOrder →
      ps.foldl (fun acc p => insertDesc p acc) acc = acc ++ ps := by
  intro ps
  induction ps with
  | nil => intro acc _; simp
  | cons p ps ih =>
      intro acc h
      rcases List.pairwise_append.mp h with ⟨hacc, hps, hcross⟩
      have hins : insertDesc p acc = acc ++ [p] := by
        refine insertDesc_of_le fun q hq => not_lt.mpr ?_
        exact hcross q hq p (List.mem_cons_self p ps)
      have h' : ((acc ++ [p]) ++ ps).Pairwise descOrder := by
        simpa [List.append_assoc] using h
      simp only [List.foldl_cons, hins, ih (acc ++ [p]) h', List.append_assoc,
        List.singleton_append]

/-! ### Grouping lemmas -/

theorem mem_insertPost {m : List (String × List NormalizedPost)} {k : String}
    {p : NormalizedPost} {kl : String × List NormalizedPost}
    (h : kl ∈ insertPost m k p) :
    kl ∈ m ∨ kl = (k, [p]) ∨ ∃ l, (k, l) ∈ m ∧ kl = (k, l ++ [p]) := by
  induction m with
  | nil =>
      right; left
      simpa [insertPost] using h
  | cons e rest ih =>
      obtain ⟨k', l⟩ := e
      unfold insertPost at h
      split at h
      next heq =>
        subst heq
        rcases List.mem_cons.mp h with h1 | h1
        · exact Or.inr (Or.inr ⟨l, List.mem_cons_self _ _, h1⟩)
        · exact Or.inl (List.mem_cons_of_mem _ h1)
      next hne =>
        rcases List.mem_cons.mp h with h1 | h1
        · exact Or.inl (h1 ▸ List.mem_cons_self _ _)
        · rcases ih h1 with h2 | h2 | ⟨l2, hl2, he⟩
          · exact Or.inl (List.mem_cons_of_mem _ h2)
          · exact Or.inr (Or.inl h2)
          · exact Or.inr (Or.inr ⟨l2, List.mem_cons_of_mem _ hl2, he⟩)

theorem join_insertPost (m : List (String × List NormalizedPost)) (k : String)
    (p : NormalizedPost) :
    (((insertPost m k p).map Prod.snd).flatten).Perm
      ((m.map Prod.snd).flatten ++ [p]) := by
  induction m with
  | nil => simp [insertPost]
  | cons e rest ih =>
      obtain ⟨k', l⟩ := e
      unfold insertPost
      split
      next =>
        simp only [List.map_cons, List.flatten_cons, List.append_assoc]
        exact List.Perm.append_left l List.perm_append_comm
      next =>
        simp only [List.map_cons, List.flatten_cons, List.append_assoc]
        exact List.Perm.append_left l ih

theorem groupByMonth_join_aux (ps : List NormalizedPost) :
    ∀ m, ((((ps.foldl (fun m p => insertPost m (month_key p.dt) p) m)).map
        Prod.snd).flatten).Perm ((m.map Prod.snd).flatten ++ ps) := by
  induction ps with
  | nil => intro m; simp
  | cons p ps ih =>
      intro m
      simp only [List.foldl_cons]
      refine (ih _).trans ?_
      refine ((join_insertPost m (month_key p.dt) p).append_right ps).trans ?_
      simp [List.append_assoc]

theorem map_fst_insertPost (m : List (String × List NormalizedPost)) (k : String)
    (p : NormalizedPost) :
    (insertPost m k p).map Prod.fst
      = if k ∈ m.map Prod.fst then m.map Prod.fst
        else m.map Prod.fst ++ [k] := by
  induction m with
  | nil => simp [insertPost]
  | cons e rest ih =>
      obtain ⟨k', l⟩ := e
      unfold insertPost
      split
      next heq => subst heq; simp
      next hne =>
        have hne' : ¬ k = k' := fun h => hne h.symm
        by_cases hm : k ∈ rest.map Prod.fst <;>
          simp [ih, hm, hne', List.mem_cons]

theorem nodup_keys_insertPost {m : List (String × List NormalizedPost)}
    {k : String} {p : NormalizedPost} (h : (m.map Prod.fst).Nodup) :
    ((insertPost m k p).map Prod.fst).Nodup := by
  rw [map_fst_insertPost]
  split
  next => exact h
  next hmem => simp [List.nodup_append, h, hmem]

theorem groupByMonth_keys_nodup (ps : List NormalizedPost) :
    ((groupByMonth ps).map Prod.fst).Nodup := by
  suffices h : ∀ m : List (String × List NormalizedPost), (m.map Prod.fst).Nodup →
      (((ps.foldl (fun m p => insertPost m (month_key p.dt) p) m)).map
        Prod.fst).Nodup by
    exact h [] (by simp)
  induction ps with
  | nil => intro m hm; simpa using hm
  | cons p ps ih =>
      intro m hm
      simp only [List.foldl_cons]
      exact ih _ (nodup_keys_insertPost hm)

theorem insertPost_key_consistent {m : List (String × List NormalizedPost)}
    {k : String} {p : NormalizedPost}
    (hm : ∀ kl ∈ m, ∀ q ∈ kl.2, month_key q.dt = kl.1)
    (hk : month_key p.dt = k) :
    ∀ kl ∈ insertPost m k p, ∀ q ∈ kl.2, month_key q.dt = kl.1 := by
  intro kl hkl q hq
  rcases mem_insertPost hkl with h | h | ⟨l, hl, he⟩
  · exact hm kl h q hq
  · subst h
    simp only [List.mem_singleton] at hq
    subst hq; exact hk
  · subst he
    rcases List.mem_append.mp hq with h2 | h2
    · exact hm _ hl q h2
    · simp only [List.mem_singleton] at h2
      subst h2; exact hk

theorem groupByMonth_key_consistent (ps : List NormalizedPost) :
    ∀ kl ∈ groupByMonth ps, ∀ q ∈ kl.2, month_key q.dt = kl.1 := by
  suffices h : ∀ m : List (String × List NormalizedPost),
      (∀ kl ∈ m, ∀ q ∈ kl.2, month_key q.dt = kl.1) →
      ∀ kl ∈ ps.foldl (fun m p => insertPost m (month_key p.dt) p) m,
        ∀ q ∈ kl.2, month_key q.dt = kl.1 by
    exact h [] (by simp)
  induction ps with
  | nil => intro m hm; simpa using hm
  | cons p ps ih =>
      intro m hm
      simp only [List.foldl_cons]
      exact ih _ (insertPost_key_consistent hm rfl)

theorem grouped_pairwise_aux :
    ∀ (ps : List NormalizedPost) (m : List (String × List NormalizedPost)),
      ps.Pairwise descOrder →
      (∀ kl ∈ m, kl.2.Pairwise descOrder) →
      (∀ kl ∈ m, ∀ q ∈ kl.2, ∀ r ∈ ps, descOrder q r) →
      ∀ kl ∈ ps.foldl (fun m p => insertPost m (month_key p.dt) p) m,
        kl.2.Pairwise descOrder := by
  intro ps
  induction ps with
  | nil => intro m _ hm _; simpa using hm
  | cons p ps ih =>
      intro m hps hm hcross
      simp only [List.foldl_cons]
      rcases List.pairwise_cons.mp hps with ⟨hp, hps'⟩
      refine ih _ hps' ?_ ?_
      · intro kl hkl
        rcases mem_insertPost hkl with h | h | ⟨l, hl, he⟩
        · exact hm kl h
        · subst h; simp
        · subst he
          rw [List.pairwise_append]
          refine ⟨hm _ hl, by simp, ?_⟩
          intro a ha b hb
          simp only [List.mem_singleton] at hb
          rw [hb]
          exact hcross _ hl a ha p (List.mem_cons_self p ps)
      · intro kl hkl q hq r hr
        rcases mem_insertPost hkl with h | h | ⟨l, hl, he⟩
        · exact hcross kl h q hq r (List.mem_cons_of_mem p hr)
        · subst h
          simp only [List.mem_singleton] at hq
          subst hq
          exact hp r hr
        · subst he
          rcases List.mem_append.mp hq with h2 | h2
          · exact hcross _ hl q h2 r (List.mem_cons_of_mem p hr)
          · simp only [List.mem_singleton] at h2
            subst h2
            exact hp r hr

/-- Claim C4: grouping is a partition of the normalized post set.  The
concatenation of all month buckets is a permutation of the input list
(each post exactly once, none duplicated or dropped), bucket keys are
pairwise distinct, and every post sits in the bucket of its own month
key, so each post appears in exactly one bucket exactly once. -/
theorem c4_grouping_partition :
    ∀ ps : List NormalizedPost,
      ((((groupByMonth ps).map Prod.snd).flatten).Perm ps) ∧
      ((groupByMonth ps).map Prod.fst).Nodup ∧
      (∀ kl ∈ groupByMonth ps, ∀ q ∈ kl.2, month_key q.dt = kl.1) := by
  intro ps
  refine ⟨?_, groupByMonth_keys_nodup ps, groupByMonth_key_consistent ps⟩
  simpa using groupByMonth_join_aux ps []

/-- Witness for C4 at a concrete three-post list spanning two months. -/
theorem c4_grouping_partition_witness :
    ((((groupByMonth [postA, postB, postC]).map Prod.snd).flatten).Perm
      [postA, postB, postC]) ∧
    ((groupByMonth [postA, postB, postC]).map Prod.fst).Nodup ∧
    month_key postA.dt = "2024-03" :=
  ⟨(c4_grouping_partition [postA, postB, postC]).1,
   (c4_grouping_partition [postA, postB, postC]).2.1,
   (c4_grouping_partition [postA, postB, postC]).2.2 ("2024-03", [postA, postB])
     (by decide) postA (by decide)⟩

/-- Claim C5: within each month bucket produced from the sorted post list,
posts are in descending timestamp order, and the sort is idempotent. -/
theorem c5_buckets_sorted_idem :
    ∀ ps : List NormalizedPost,
      (∀ kl ∈ groupByMonth (sortDesc ps), kl.2.Pairwise descOrder) ∧
      sortDesc (sortDesc ps) = sortDesc ps := by
  intro ps
  constructor
  · exact grouped_pairwise_aux (sortDesc ps) [] (sortDesc_pairwise ps)
      (by simp) (by simp)
  · exact sortDesc_of_sorted (sortDesc ps) [] (by simpa using sortDesc_pairwise ps)

/-- Witness for C5 at a concrete three-post list: the March bucket of the
sorted list is descending, and re-sorting changes nothing. -/
theorem c5_buckets_sorted_idem_witness :
    List.Pairwise descOrder [postB, postA] ∧
    sortDesc (sortDesc [postA, postB, postC]) = sortDesc [postA, postB, postC] :=
  ⟨(c5_buckets_sorted_idem [postA, postB, postC]).1 ("2024-03", [postB, postA])
      (by decide),
   (c5_buckets_sorted_idem [postA, postB, postC]).2⟩

/-! ### Fetch-loop lemmas -/

theorem fetchLoop_stable (server : Nat → Page) :
    ∀ (d i : Nat) (cur : Option String) (fuel fuel' : Nat),
      continues (server (i + d)) = false → d < fuel → d < fuel' →
      fetchLoop server fuel i cur = fetchLoop server fuel' i cur := by
  intro d
  induction d with
  | zero =>
      intro i cur fuel fuel' hterm hf hf'
      obtain ⟨f, rfl⟩ : ∃ f, fuel = f + 1 := ⟨fuel - 1, by omega⟩
      obtain ⟨f', rfl⟩ : ∃ f', fuel' = f' + 1 := ⟨fuel' - 1, by omega⟩
      rw [Nat.add_zero] at hterm
      simp only [fetchLoop, hterm]
      simp
  | succ d ih =>
      intro i cur fuel fuel' hterm hf hf'
      obtain ⟨f, rfl⟩ : ∃ f, fuel = f + 1 := ⟨fuel - 1, by omega⟩
      obtain ⟨f', rfl⟩ : ∃ f', fuel' = f' + 1 := ⟨fuel' - 1, by omega⟩
      have hterm' : continues (server ((i + 1) + d)) = false := by
        rw [show (i + 1) + d = i + (d + 1) by omega]
        exact hterm
      by_cases hc : continues (server i) = true
      · simp only [fetchLoop, hc]
        rw [ih (i + 1) (server i).cursor f f' hterm' (by omega) (by omega)]
      · simp only [Bool.not_eq_true] at hc
        simp only [fetchLoop, hc]
        simp

theorem fetchLoop_req_bound (server : Nat → Page) :
    ∀ (d i : Nat) (cur : Option String) (fuel : Nat),
      continues (server (i + d)) = false → d < fuel →
      (fetchLoop server fuel i cur).2.length ≤ d + 1 := by
  intro d
  induction d with
  | zero =>
      intro i cur fuel hterm hf
      obtain ⟨f, rfl⟩ : ∃ f, fuel = f + 1 := ⟨fuel - 1, by omega⟩
      rw [Nat.add_zero] at hterm
      simp [fetchLoop, hterm]
  | succ d ih =>
      intro i cur fuel hterm hf
      obtain ⟨f, rfl⟩ : ∃ f, fuel = f + 1 := ⟨fuel - 1, by omega⟩
      have hterm' : continues (server ((i + 1) + d)) = false := by
        rw [show (i + 1) + d = i + (d + 1) by omega]
        exact hterm
      by_cases hc : continues (server i) = true
      · have hb := ih (i + 1) (server i).cursor f hterm' (by omega)
        simp only [fetchLoop, hc]
        simp only [if_true, List.length_cons]
        omega
      · simp only [Bool.not_eq_true] at hc
        simp [fetchLoop, hc]

theorem fetchLoop_limit (server : Nat → Page) :
    ∀ (fuel i : Nat) (cur : Option String) (rq : Request),
      rq ∈ (fetchLoop server fuel i cur).2 → rq.limit = 100 := by
  intro fuel
  induction fuel with
  | zero => intro i cur rq h; simp [fetchLoop] at h
  | succ f ih =>
      intro i cur rq h
      by_cases hc : continues (server i) = true
      · simp only [fetchLoop, hc, if_true, List.mem_cons] at h
        rcases h with h | h
        · rw [h]
        · exact ih (i + 1) (server i).cursor rq h
      · simp only [Bool.not_eq_true] at hc
        simp only [fetchLoop, hc] at h
        simp at h
        rw [h]

/-- Claim C6: the fetcher requests pages with `limit=100`, continues with
the cursor of the previous page (built into `fetchLoop`), and once the
upstream answers request `k` with no truthy cursor or an empty item list
it makes at most `k + 1` requests and its result no longer depends on the
available fuel — the loop terminates there. -/
theorem c6_fetch_bounded :
    ∀ (server : Nat → Page) (k fuel : Nat),
      continues (server k) = false → k < fuel →
      (fetchLoop server fuel 0 none).2.length ≤ k + 1 ∧
      (∀ rq ∈ (fetchLoop server fuel 0 none).2, rq.limit = 100) ∧
      fetchLoop server fuel 0 none = fetchLoop server (k + 1) 0 none := by
  intro server k fuel hterm hf
  refine ⟨?_, ?_, ?_⟩
  · exact fetchLoop_req_bound server k 0 none fuel (by simpa using hterm) hf
  · intro rq h
    exact fetchLoop_limit server fuel 0 none rq h
  · exact fetchLoop_stable server k 0 none fuel (k + 1)
      (by simpa using hterm) hf (Nat.lt_succ_self k)

/-- Witness for C6 at a concrete upstream that answers the first request
with an empty page and no cursor. -/
theorem c6_fetch_bounded_witness :
    (fetchLoop (fun _ => (⟨[], none⟩ : Page)) 5 0 none).2.length ≤ 1 ∧
    fetchLoop (fun _ => (⟨[], none⟩ : Page)) 5 0 none
      = fetchLoop (fun _ => (⟨[], none⟩ : Page)) 1 0 none :=
  ⟨(c6_fetch_bounded (fun _ => (⟨[], none⟩ : Page)) 0 5 rfl (by omega)).1,
   (c6_fetch_bounded (fun _ => (⟨[], none⟩ : Page)) 0 5 rfl (by omega)).2.2⟩

end BskyArchive
